import Mathlib

/-!
Verification of the PS/2 Scan-Code-Set-2 decoder
(keyboards/converter/ps2_usb/matrix.c) and of the Adafruit BLE transport
(tmk_core/protocol/lufa/adafruit_ble.cpp) against their specification.
Every definition below is a shallow embedding of the corresponding C or
C++ function; machine bytes are modelled as Nat values below 256, byte
buffers as lists of Nat.
-/

namespace PS2

/-- Decoder states of the static state variable inside matrix_scan. -/
inductive DState where
  | INIT | F0 | E0 | E0_F0
  | E1 | E1_14 | E1_14_77 | E1_14_77_E1 | E1_14_77_E1_F0
  | E1_14_77_E1_F0_14 | E1_14_77_E1_F0_14_F0
  | E0_7E | E0_7E_E0 | E0_7E_E0_F0
deriving DecidableEq

/-- The matrix is 32 rows of one byte each (MATRIX_ROWS = 32). -/
abbrev KMatrix := List Nat

def MATRIX_ROWS : Nat := 32

/-- ROW(code) = code>>3. -/
def ROW (code : Nat) : Nat := code / 8

/-- COL(code) = code & 0x07. -/
def COL (code : Nat) : Nat := code % 8

def KC_F7 : Nat := 0x83
def PRINT_SCREEN : Nat := 0xFC
def PAUSE : Nat := 0xFE

/-- matrix_clear zeroes every row. -/
def matrix_clear : KMatrix := List.replicate MATRIX_ROWS 0

/-- matrix_is_on(row, col) = matrix[row] & (1 << col), as a boolean. -/
def matrix_is_on (m : KMatrix) (row col : Nat) : Bool :=
  ((m.getD row 0) &&& (1 <<< col)) != 0

/-- matrix_make sets bit COL(code) of row ROW(code) when it was clear. -/
def matrix_make (m : KMatrix) (code : Nat) : KMatrix :=
  if matrix_is_on m (ROW code) (COL code) then m
  else m.set (ROW code) ((m.getD (ROW code) 0) ||| (1 <<< COL code))

/-- matrix_break clears bit COL(code) of row ROW(code) when it was set;
the C code masks with the uint8 complement of 1 << col, which for
col < 8 is 255 XOR (1 << col). -/
def matrix_break (m : KMatrix) (code : Nat) : KMatrix :=
  if matrix_is_on m (ROW code) (COL code) then
    m.set (ROW code) ((m.getD (ROW code) 0) &&& (255 ^^^ (1 <<< COL code)))
  else m

/-- Result of consuming one byte: next state, matrix, and whether
clear_keyboard (the host-report clear) was invoked. -/
structure DOut where
  st : DState
  mat : KMatrix
  kb : Bool
deriving DecidableEq

/-- The switch statement of matrix_scan: one byte consumed in a given
state, acting on the matrix.  Transcribed case by case from the source. -/
def decode : DState → Nat → KMatrix → DOut
  | .INIT, code, m =>
    if code = 0xE0 then ⟨.E0, m, false⟩
    else if code = 0xF0 then ⟨.F0, m, false⟩
    else if code = 0xE1 then ⟨.E1, m, false⟩
    else if code = 0x83 then ⟨.INIT, matrix_make m KC_F7, false⟩
    else if code = 0x84 then ⟨.INIT, matrix_make m PRINT_SCREEN, false⟩
    else if code = 0x00 then ⟨.INIT, matrix_clear, true⟩
    else if code = 0xAA ∨ code = 0xFC then ⟨.INIT, m, false⟩
    else if code < 0x80 then ⟨.INIT, matrix_make m code, false⟩
    else ⟨.INIT, matrix_clear, true⟩
  | .E0, code, m =>
    if code = 0x12 ∨ code = 0x59 then ⟨.INIT, m, false⟩
    else if code = 0x7E then ⟨.E0_7E, m, false⟩
    else if code = 0xF0 then ⟨.E0_F0, m, false⟩
    else if code < 0x80 then ⟨.INIT, matrix_make m (code ||| 0x80), false⟩
    else ⟨.INIT, matrix_clear, true⟩
  | .F0, code, m =>
    if code = 0x83 then ⟨.INIT, matrix_break m KC_F7, false⟩
    else if code = 0x84 then ⟨.INIT, matrix_break m PRINT_SCREEN, false⟩
    else if code = 0xF0 then ⟨.F0, matrix_clear, true⟩
    else if code < 0x80 then ⟨.INIT, matrix_break m code, false⟩
    else ⟨.INIT, matrix_clear, true⟩
  | .E0_F0, code, m =>
    if code = 0x12 ∨ code = 0x59 then ⟨.INIT, m, false⟩
    else if code < 0x80 then ⟨.INIT, matrix_break m (code ||| 0x80), false⟩
    else ⟨.INIT, matrix_clear, true⟩
  | .E1, code, m => ⟨if code = 0x14 then .E1_14 else .INIT, m, false⟩
  | .E1_14, code, m => ⟨if code = 0x77 then .E1_14_77 else .INIT, m, false⟩
  | .E1_14_77, code, m => ⟨if code = 0xE1 then .E1_14_77_E1 else .INIT, m, false⟩
  | .E1_14_77_E1, code, m => ⟨if code = 0xF0 then .E1_14_77_E1_F0 else .INIT, m, false⟩
  | .E1_14_77_E1_F0, code, m => ⟨if code = 0x14 then .E1_14_77_E1_F0_14 else .INIT, m, false⟩
  | .E1_14_77_E1_F0_14, code, m =>
    ⟨if code = 0xF0 then .E1_14_77_E1_F0_14_F0 else .INIT, m, false⟩
  | .E1_14_77_E1_F0_14_F0, code, m =>
    if code = 0x77 then ⟨.INIT, matrix_make m PAUSE, false⟩ else ⟨.INIT, m, false⟩
  | .E0_7E, code, m => ⟨if code = 0xE0 then .E0_7E_E0 else .INIT, m, false⟩
  | .E0_7E_E0, code, m => ⟨if code = 0xF0 then .E0_7E_E0_F0 else .INIT, m, false⟩
  | .E0_7E_E0_F0, code, m =>
    if code = 0x7E then ⟨.INIT, matrix_make m PAUSE, false⟩ else ⟨.INIT, m, false⟩

/-- Configuration carried across matrix_scan calls: the static state
variable together with the matrix array. -/
structure Cfg where
  st : DState
  mat : KMatrix
deriving DecidableEq

/-- The pseudo break code hack at the top of matrix_scan: if the Pause
position is held, break it before consuming any input. -/
def pseudoBreak (m : KMatrix) : KMatrix :=
  if matrix_is_on m (ROW PAUSE) (COL PAUSE) then matrix_break m PAUSE else m

/-- One invocation of matrix_scan.  The input is the byte delivered by
ps2_host_recv, or none when there is no data or a receive error (the
switch is skipped in that case, but the pseudo break still runs).
The boolean records whether clear_keyboard was called. -/
def matrix_scan (c : Cfg) (input : Option Nat) : Cfg × Bool :=
  let m := pseudoBreak c.mat
  match input with
  | none => (⟨c.st, m⟩, false)
  | some code =>
      let d := decode c.st code m
      (⟨d.st, d.mat⟩, d.kb)

/-- Iterate matrix_scan over a list of inputs. -/
def scanRun (c : Cfg) (l : List (Option Nat)) : Cfg :=
  l.foldl (fun a i => (matrix_scan a i).1) c

/-- Initial configuration: state INIT, all keys off. -/
def initCfg : Cfg := ⟨.INIT, matrix_clear⟩

/-- Run a plain byte sequence (every scan sees one byte) from the
initial configuration. -/
def runBytes (bs : List Nat) : Cfg := scanRun initCfg (bs.map some)

end PS2

namespace PS2

theorem scanRun_append (c : Cfg) (l1 l2 : List (Option Nat)) :
    scanRun c (l1 ++ l2) = scanRun (scanRun c l1) l2 := by
  simp [scanRun, List.foldl_append]

theorem is_on_lt (m : KMatrix) (r c : Nat) (h : matrix_is_on m r c = true) :
    r < m.length := by
  by_contra hlt
  push_neg at hlt
  rw [matrix_is_on, List.getD_eq_getElem?_getD, List.getElem?_eq_none hlt] at h
  simp at h

theorem break_pause_off (m : KMatrix) :
    matrix_is_on (matrix_break m PAUSE) (ROW PAUSE) (COL PAUSE) = false := by
  by_cases h : matrix_is_on m (ROW PAUSE) (COL PAUSE) = true
  · have hlt := is_on_lt m _ _ h
    rw [matrix_break, if_pos h, matrix_is_on, List.getD_eq_getElem?_getD,
      List.getElem?_set_self hlt]
    have hz : (255 ^^^ (1 <<< COL PAUSE)) &&& (1 <<< COL PAUSE) = 0 := by decide
    simp only [Option.getD_some, Nat.and_assoc, hz, Nat.and_zero]
    decide
  · rw [matrix_break, if_neg h]
    simpa using h

theorem pseudoBreak_idem (m : KMatrix) :
    pseudoBreak (pseudoBreak m) = pseudoBreak m := by
  by_cases h : matrix_is_on m (ROW PAUSE) (COL PAUSE) = true
  · have hb : pseudoBreak m = matrix_break m PAUSE := by
      rw [pseudoBreak, if_pos h]
    rw [hb, pseudoBreak, break_pause_off]
    simp
  · have hb : pseudoBreak m = m := by
      rw [pseudoBreak, if_neg h]
    rw [hb]
    exact hb

theorem bracket_run (c : Cfg) (b : Nat) (hst : c.st = DState.INIT)
    (hb : b = 0x12 ∨ b = 0x59) :
    scanRun c [some 0xE0, some 0xF0, some b] = ⟨DState.INIT, pseudoBreak c.mat⟩ := by
  obtain ⟨st, m⟩ := c
  simp only [Cfg.st] at hst
  subst hst
  rcases hb with rfl | rfl <;>
    simp [scanRun, matrix_scan, decode, pseudoBreak_idem]

theorem absorb_first (m : KMatrix) (i : Option Nat) (l : List (Option Nat)) :
    scanRun ⟨DState.INIT, pseudoBreak m⟩ (i :: l) = scanRun ⟨DState.INIT, m⟩ (i :: l) := by
  have hstep : (matrix_scan ⟨DState.INIT, pseudoBreak m⟩ i).1
      = (matrix_scan ⟨DState.INIT, m⟩ i).1 := by
    cases i <;> simp [matrix_scan, pseudoBreak_idem]
  simp only [scanRun, List.foldl_cons]
  rw [show (matrix_scan ⟨DState.INIT, pseudoBreak m⟩ i).1
      = (matrix_scan ⟨DState.INIT, m⟩ i).1 from hstep]

end PS2

namespace PS2

/-- C4 counterexample: the claim fails as stated.  The Ctrl-Pause chain
E0 7E E0 F0 7E is an E0-prefixed event that leaves the Pause bit set
and the decoder in INIT; appending the shift-synthesised bracket
E0 F0 12 after it changes the final matrix (the pseudo break emitted by
the extra scans releases Pause), so the bracketed and unbracketed
sequences end with different matrices. -/
theorem c4_counterexample :
    (runBytes [0xE0, 0x7E, 0xE0, 0xF0, 0x7E]).st = DState.INIT ∧
    (runBytes ([0xE0, 0x7E, 0xE0, 0xF0, 0x7E] ++ [0xE0, 0xF0, 0x12])).mat
      ≠ (runBytes [0xE0, 0x7E, 0xE0, 0xF0, 0x7E]).mat := by
  decide

/-- C4 (amended): inserting the bracket E0 F0 12 or E0 F0 59 at a point
where the decoder is in INIT leaves the final matrix unchanged provided
more input follows the bracket or the Pause bit is clear at the
insertion point; and the bytes 12 and 59 are dropped from both the E0
and the E0_F0 states without touching the matrix. -/
theorem c4_amended_bracket_invariance (s1 s2 : List Nat) (b : Nat)
    (hb : b = 0x12 ∨ b = 0x59)
    (hst : (runBytes s1).st = DState.INIT)
    (hp : matrix_is_on (runBytes s1).mat (ROW PAUSE) (COL PAUSE) = false ∨ s2 ≠ []) :
    (runBytes (s1 ++ [0xE0, 0xF0, b] ++ s2)).mat = (runBytes (s1 ++ s2)).mat ∧
    (∀ (c : Nat) (m : KMatrix), c = 0x12 ∨ c = 0x59 →
      decode DState.E0 c m = ⟨DState.INIT, m, false⟩ ∧
      decode DState.E0_F0 c m = ⟨DState.INIT, m, false⟩) := by
  constructor
  · rw [runBytes, runBytes, List.map_append, List.map_append, List.map_append,
      scanRun_append, scanRun_append, scanRun_append]
    rw [show scanRun initCfg (s1.map some) = runBytes s1 from rfl]
    rw [show ([0xE0, 0xF0, b].map some) = [some 0xE0, some 0xF0, some b] from rfl]
    rw [bracket_run (runBytes s1) b hst hb]
    rcases hA : runBytes s1 with ⟨st0, m0⟩
    rw [hA] at hst hp
    simp only [Cfg.st, Cfg.mat] at hst hp ⊢
    subst hst
    cases s2 with
    | nil =>
        rcases hp with hp | hp
        · simp only [List.map_nil, scanRun, List.foldl_nil, Cfg.mat]
          rw [pseudoBreak, if_neg (by simp [hp])]
        · exact absurd rfl hp
    | cons x xs =>
        rw [List.map_cons, absorb_first]
  · rintro c m (rfl | rfl) <;> exact ⟨by simp [decode], by simp [decode]⟩

/-- C4 witness: a concrete E0-prefixed press bracketed by E0 F0 12 and
followed by its break gives the same final matrix as without the
bracket. -/
theorem c4_amended_bracket_invariance_witness :
    (runBytes ([0xE0, 0x75] ++ [0xE0, 0xF0, 0x12] ++ [0xE0, 0xF0, 0x75])).mat
      = (runBytes ([0xE0, 0x75] ++ [0xE0, 0xF0, 0x75])).mat :=
  (c4_amended_bracket_invariance [0xE0, 0x75] [0xE0, 0xF0, 0x75] 0x12
    (Or.inl rfl) (by decide) (Or.inl (by decide))).1

/-- C5 counterexample: the byte 0xE0 is not below 0x80 and is consumed
in state INIT (a state the claim covers), yet it neither clears the
matrix nor leaves the decoder in INIT. -/
theorem c5_counterexample :
    0x80 ≤ 0xE0 ∧
    (runBytes [0x1C, 0xE0]).st ≠ DState.INIT ∧
    (runBytes [0x1C, 0xE0]).mat ≠ matrix_clear := by
  decide

/-- C5 (amended): after a single injected byte at least 0x80 that is
not one of the codes specially handled by the current state
(E0, F0, E1, 83, 84, AA, FC in INIT; 83, 84, F0 in F0; F0 in E0;
none in E0_F0), the matrix is cleared, clear_keyboard runs, and the
decoder returns to INIT. -/
theorem c5_amended_recovery (b : Nat) (m : KMatrix) (hb : 0x80 ≤ b) :
    (b ≠ 0xE0 → b ≠ 0xF0 → b ≠ 0xE1 → b ≠ 0x83 → b ≠ 0x84 → b ≠ 0xAA → b ≠ 0xFC →
      decode DState.INIT b m = ⟨DState.INIT, matrix_clear, true⟩) ∧
    (b ≠ 0x83 → b ≠ 0x84 → b ≠ 0xF0 →
      decode DState.F0 b m = ⟨DState.INIT, matrix_clear, true⟩) ∧
    (b ≠ 0xF0 → decode DState.E0 b m = ⟨DState.INIT, matrix_clear, true⟩) ∧
    decode DState.E0_F0 b m = ⟨DState.INIT, matrix_clear, true⟩ := by
  refine ⟨fun h1 h2 h3 h4 h5 h6 h7 => ?_, fun h1 h2 h3 => ?_, fun h1 => ?_, ?_⟩
  · rw [decode, if_neg h1, if_neg h2, if_neg h3, if_neg h4, if_neg h5,
      if_neg (by omega), if_neg (by omega), if_neg (by omega)]
  · rw [decode, if_neg h1, if_neg h2, if_neg h3, if_neg (by omega)]
  · rw [decode, if_neg (by omega), if_neg (by omega), if_neg h1, if_neg (by omega)]
  · rw [decode, if_neg (by omega), if_neg (by omega)]

/-- C5 witness: the theorem applied to the concrete byte 0x99 in
state E0_F0 over a non-empty matrix. -/
theorem c5_amended_recovery_witness :
    0x80 ≤ 0x99 ∧
    decode DState.E0_F0 0x99 [1] = ⟨DState.INIT, matrix_clear, true⟩ :=
  ⟨by decide, (c5_amended_recovery 0x99 [1] (by decide)).2.2.2⟩

/-- C6: feeding the full Pause make sequence sets the PAUSE position
bit, and one further matrix_scan with no input clears it again, leaving
the matrix all zero. -/
theorem c6_pause_one_tick :
    matrix_is_on (runBytes [0xE1, 0x14, 0x77, 0xE1, 0xF0, 0x14, 0xF0, 0x77]).mat
      (ROW PAUSE) (COL PAUSE) = true ∧
    (runBytes [0xE1, 0x14, 0x77, 0xE1, 0xF0, 0x14, 0xF0, 0x77]).st = DState.INIT ∧
    (matrix_scan (runBytes [0xE1, 0x14, 0x77, 0xE1, 0xF0, 0x14, 0xF0, 0x77]) none).1.mat
      = matrix_clear := by
  decide

/-- C7: transitions out of state F0.  A second F0 clears the matrix and
the host report and stays in F0; 0x83 and 0x84 break the reserved
positions, bytes below 0x80 break the plain position, and any other
byte at least 0x80 clears; all of those return to INIT. -/
theorem c7_state_f0_transitions (b : Nat) (m : KMatrix) :
    decode DState.F0 0xF0 m = ⟨DState.F0, matrix_clear, true⟩ ∧
    decode DState.F0 0x83 m = ⟨DState.INIT, matrix_break m KC_F7, false⟩ ∧
    decode DState.F0 0x84 m = ⟨DState.INIT, matrix_break m PRINT_SCREEN, false⟩ ∧
    (b < 0x80 → decode DState.F0 b m = ⟨DState.INIT, matrix_break m b, false⟩) ∧
    (0x80 ≤ b → b ≠ 0x83 → b ≠ 0x84 → b ≠ 0xF0 →
      decode DState.F0 b m = ⟨DState.INIT, matrix_clear, true⟩) := by
  refine ⟨by simp [decode], by simp [decode], by simp [decode],
    fun h => ?_, fun h h1 h2 h3 => ?_⟩
  · rw [decode, if_neg (by omega), if_neg (by omega), if_neg (by omega), if_pos h]
  · rw [decode, if_neg h1, if_neg h2, if_neg h3, if_neg (by omega)]

/-- C7 witness: the theorem applied to the concrete byte 0x05, which is
below 0x80 and breaks position 0x05. -/
theorem c7_state_f0_transitions_witness :
    0x05 < 0x80 ∧
    decode DState.F0 0x05 [255] = ⟨DState.INIT, matrix_break [255] 0x05, false⟩ :=
  ⟨by decide, (c7_state_f0_transitions 0x05 [255]).2.2.2.1 (by decide)⟩

end PS2

namespace BLE

def SdepCommand : Nat := 0x10
def SdepResponse : Nat := 0x20
def SdepSlaveNotReady : Nat := 0xFE
def SdepSlaveOverflow : Nat := 0xFF
def SdepMaxPayload : Nat := 16

/-- An SDEP packet as handed to read_response: type byte, the 7-bit len
field, the more bit, and the payload bytes that were read into the
16-byte payload array. -/
structure SdepPkt where
  ptype : Nat
  len : Nat
  more : Bool
  payload : List Nat
deriving DecidableEq

/-- Payload-concatenation loop of read_response.  The C code computes
len = min(msg.len, end - dest) where end - dest is truncated to uint8
by the inline min helper, hence the mod 256; dest advances by len and
the loop continues while the packet has the more bit.  An empty packet
list stands for a sdep_recv_pkt timeout (C returns false with no
further write); a non-Response packet makes the C code store a NUL at
resp[0] and return false. -/
def gatherPayloads : List SdepPkt → Nat → List Nat → Option (Option (List Nat))
  | [], _, _ => none
  | p :: rest, resplen, acc =>
    if p.ptype ≠ SdepResponse then some none
    else
      let l := min p.len ((resplen - acc.length) % 256)
      let acc' := acc ++ p.payload.take l
      if p.more then gatherPayloads rest resplen acc' else some (some acc')

/-- Strip trailing CR and LF bytes; the C loop stops while dest > resp,
so the first byte of the buffer is never examined. -/
def dropTrailingCRLF (l : List Nat) : List Nat :=
  (l.reverse.dropWhile (fun c => c == 13 || c == 10)).reverse

/-- The rewind-and-strip step of read_response applied to the gathered
bytes (the byte after the last payload byte is the NUL terminator). -/
def stripResp : List Nat → List Nat
  | [] => []
  | c :: cs => c :: dropTrailingCRLF cs

/-- strrchr for the last newline: the suffix after the last LF byte, or
the whole string when there is none. -/
def lastLine (l : List Nat) : List Nat :=
  (l.reverse.takeWhile (fun c => c != 10)).reverse

def kOK : List Nat := [79, 75]

/-- read_response: gather Response payloads until a packet without the
more bit, NUL-terminate, strip trailing CR/LF, and succeed iff the last
line equals OK.  Returns the success flag and the buffer contents read
as a C string.  none models the sdep_recv_pkt-failure return. -/
def read_response (pkts : List SdepPkt) (resplen : Nat) : Option (Bool × List Nat) :=
  match gatherPayloads pkts resplen [] with
  | none => none
  | some none => some (false, [])
  | some (some acc) =>
      let s := stripResp acc
      some (lastLine s == kOK, s)

end BLE

namespace BLE

/-- Result of sdep_recv_pkt: the header fields, the payload bytes that
were clocked in, and the total number of SPI bytes consumed. -/
structure SdepRecvOut where
  ptype : Nat
  cmd_low : Nat
  cmd_high : Nat
  len : Nat
  more : Bool
  payload : List Nat
  consumed : Nat
deriving DecidableEq

/-- Body of sdep_recv_pkt once the IRQ line is high: read the type
byte at stream position i; on SlaveNotReady or SlaveOverflow release
the chip select and retry (fuel bounds the retries, standing for the
timeout); otherwise read the remaining three header bytes; the fourth
header byte packs len in bits 0 to 6 and more in bit 7; the payload is
read only when len is at most SdepMaxPayload.  spi gives the byte
clocked in at each position. -/
def sdepRecvGo (spi : Nat → Nat) : Nat → Nat → Option SdepRecvOut
  | _, 0 => none
  | i, fuel + 1 =>
    let t := spi i % 256
    if t = SdepSlaveNotReady ∨ t = SdepSlaveOverflow then
      sdepRecvGo spi (i + 1) fuel
    else
      let b4 := spi (i + 3) % 256
      let len := b4 % 128
      let pcount := if len ≤ SdepMaxPayload then len else 0
      some ⟨t, spi (i + 1) % 256, spi (i + 2) % 256, len, decide (128 ≤ b4),
        (List.range pcount).map (fun k => spi (i + 4 + k) % 256), i + 4 + pcount⟩

/-- sdep_recv_pkt: when the IRQ line never rises within the timeout the
call returns false; otherwise the header is read as above. -/
def sdep_recv_pkt (irq : Bool) (spi : Nat → Nat) (fuel : Nat) : Option SdepRecvOut :=
  if irq then sdepRecvGo spi 0 fuel else none

def isSpace (c : Nat) : Bool :=
  c == 32 || c == 9 || c == 10 || c == 11 || c == 12 || c == 13

def hexDigit (c : Nat) : Option Nat :=
  if 48 ≤ c ∧ c ≤ 57 then some (c - 48)
  else if 97 ≤ c ∧ c ≤ 102 then some (c - 87)
  else if 65 ≤ c ∧ c ≤ 70 then some (c - 55)
  else none

def hexFold : List Nat → Nat → Nat
  | [], acc => acc
  | c :: cs, acc =>
    match hexDigit c with
    | some d => hexFold cs (acc * 16 + d)
    | none => acc

/-- strtoul(resp, NULL, 16): skip whitespace, skip an optional 0x or 0X
prefix, then fold hexadecimal digits until the first non-digit. -/
def strtoul16 (s : List Nat) : Nat :=
  let s1 := s.dropWhile isSpace
  let s2 := match s1 with
    | 48 :: c :: rest => if c == 120 || c == 88 then rest else s1
    | _ => s1
  hexFold s2 0

/-- Values of enum ble_system_event_bits used by adafruit_ble_task. -/
def BleSystemConnected : Nat := 0
def BleSystemDisconnected : Nat := 1

/-- The is_connected update performed on the parsed EVENTSTATUS mask,
exactly as the source tests it: mask & BleSystemConnected and
mask & BleSystemDisconnected, with the enum values used directly as
operands of the bitwise and. -/
def maskUpdateConn (mask : Nat) (conn : Bool) : Bool :=
  if mask &&& BleSystemConnected ≠ 0 then true
  else if mask &&& BleSystemDisconnected ≠ 0 then false
  else conn

/-- The event-status step of adafruit_ble_task: when the response
buffer is empty, UsingEvents is set and the IRQ line is high, issue
AT+EVENTSTATUS; when that command succeeds, parse the first hex word
of the response buffer and update is_connected from it. -/
def taskEventStep (respEmpty usingEvents irq atOk : Bool)
    (resp : List Nat) (conn : Bool) : Bool :=
  if respEmpty && usingEvents && irq then
    (if atOk then maskUpdateConn (strtoul16 resp) conn else conn)
  else conn

end BLE

namespace BLE

/-- Queue items, mirroring struct queue_item: a key report carries the
modifier and six key bytes, a consumer item the 16-bit keycode, a
mouse item the four displacement bytes and the buttons. -/
inductive QItem where
  | keyReport (modifier k0 k1 k2 k3 k4 k5 : Nat)
  | consumer (keycode : Nat)
  | mousemove (x y scroll pan : Int) (buttons : Nat)
deriving DecidableEq

/-- The 40-entry send ring buffer capacity. -/
def SendBufCapacity : Nat := 40

/-- State of the send path: the items already handed to
process_queue_item in order, and the items still pending in send_buf. -/
structure BleQueue where
  sent : List QItem
  pending : List QItem
deriving DecidableEq

/-- Effect of one send_buf_send_one call on send_buf: when the response
buffer is empty and process_queue_item succeeds (abstracted by the ok
flag) the front item is peeked, transmitted and removed; otherwise
send_buf is unchanged. -/
def sendOne (ok : Bool) (q : BleQueue) : BleQueue :=
  match q.pending with
  | [] => q
  | it :: rest => if ok then ⟨q.sent ++ [it], rest⟩ else q

/-- The producer retry loop: while send_buf.enqueue(item) fails because
the buffer is full, call send_buf_send_one and try again.  env lists
the outcome of each successive send_buf_send_one call; exhausting it
models a loop that never gets buffer space (the C call then never
returns). -/
def enqueueRetry (item : QItem) (env : List Bool) (q : BleQueue) :
    Option (BleQueue × List Bool) :=
  if q.pending.length < SendBufCapacity then some (⟨q.sent, q.pending ++ [item]⟩, env)
  else
    match env with
    | [] => none
    | e :: rest => enqueueRetry item rest (sendOne e q)

/-- The key report built by one iteration of the adafruit_ble_send_keys
loop: keys[0] is always read, keys[1..5] are taken only while nkeys
reaches that far, otherwise zero. -/
def mkKeyItem (modifier : Nat) (keys : List Nat) (nkeys : Nat) : QItem :=
  QItem.keyReport modifier (keys.getD 0 0)
    (if 1 ≤ nkeys then keys.getD 1 0 else 0)
    (if 2 ≤ nkeys then keys.getD 2 0 else 0)
    (if 3 ≤ nkeys then keys.getD 3 0 else 0)
    (if 4 ≤ nkeys then keys.getD 4 0 else 0)
    (if 5 ≤ nkeys then keys.getD 5 0 else 0)

/-- The sequence of key-report items adafruit_ble_send_keys enqueues:
one item per loop iteration, advancing by six keys while nkeys exceeds
six. -/
def chunkItems (modifier : Nat) (keys : List Nat) (nkeys : Nat) : List QItem :=
  mkKeyItem modifier keys nkeys ::
    (if h : nkeys ≤ 6 then []
     else chunkItems modifier (keys.drop 6) (nkeys - 6))
termination_by nkeys
decreasing_by omega

/-- adafruit_ble_send_keys: build a report, enqueue it with the retry
loop, return true once nkeys is down to at most six, else advance to
the next six keys.  none models a retry loop that never terminates. -/
def adafruit_ble_send_keys (modifier : Nat) (keys : List Nat) (nkeys : Nat)
    (q : BleQueue) (env : List Bool) : Option (Bool × BleQueue) :=
  match enqueueRetry (mkKeyItem modifier keys nkeys) env q with
  | none => none
  | some (q', env') =>
      if h : nkeys ≤ 6 then some (true, q')
      else adafruit_ble_send_keys modifier (keys.drop 6) (nkeys - 6) q' env'
termination_by nkeys
decreasing_by omega

/-- adafruit_ble_send_consumer_key: enqueue one consumer item with the
retry loop and return true. -/
def adafruit_ble_send_consumer_key (keycode : Nat) (q : BleQueue)
    (env : List Bool) : Option (Bool × BleQueue) :=
  match enqueueRetry (QItem.consumer keycode) env q with
  | none => none
  | some (q', _) => some (true, q')

/-- adafruit_ble_send_mouse_move: enqueue one mouse item with the retry
loop and return true. -/
def adafruit_ble_send_mouse_move (x y scroll pan : Int) (buttons : Nat)
    (q : BleQueue) (env : List Bool) : Option (Bool × BleQueue) :=
  match enqueueRetry (QItem.mousemove x y scroll pan buttons) env q with
  | none => none
  | some (q', _) => some (true, q')

end BLE

namespace BLE

/-- Payload splits used for C2: every chunk becomes a Response packet
whose len is the chunk length; every packet up to the last carries the
more bit, the last does not. -/
def mkRespPkts : List (List Nat) → List SdepPkt
  | [] => []
  | [p] => [⟨SdepResponse, p.length, false, p⟩]
  | p :: rest => ⟨SdepResponse, p.length, true, p⟩ :: mkRespPkts rest

/-- The response text of property P6, as bytes: foo CR LF OK CR LF. -/
def fooResp : List Nat := [102, 111, 111, 13, 10, 79, 75, 13, 10]

/-- What read_response leaves in the buffer for fooResp: trailing CR/LF
stripped, the OK line still present. -/
def fooStripped : List Nat := [102, 111, 111, 13, 10, 79, 75]

/-- The body alone, as the claim would have it. -/
def fooBody : List Nat := [102, 111, 111]

/-- A concrete SPI stream: type byte Response, fourth header byte 17
(len field 17, more bit clear), all other bytes zero. -/
def spiEx : Nat → Nat := fun i => if i = 0 then 0x20 else if i = 3 then 17 else 0

end BLE

namespace BLE

/-- C1: the code contradicts the claim.  For the EVENTSTATUS response
text 0x1 the parsed mask is 1, whose bit 0 (BleSystemConnected) is
set, so the claim requires is_connected to become true; but the source
tests mask & BleSystemConnected, i.e. mask & 0, which is never
non-zero, and then mask & BleSystemDisconnected, i.e. mask & 1, so the
task step leaves is_connected false (and would also force it false
from true). -/
theorem c1_event_mask_code_eval :
    strtoul16 [48, 120, 49, 13, 10, 79, 75] = 1 ∧
    Nat.testBit 1 BleSystemConnected = true ∧
    taskEventStep true true true true [48, 120, 49, 13, 10, 79, 75] false = false ∧
    taskEventStep true true true true [48, 120, 49, 13, 10, 79, 75] true = false := by
  decide

/-- C3: the code contradicts the claim.  With resplen = 1 and a single
Response packet of len 1, the concatenation loop copies
min(len, resplen - written) = 1 byte, exceeding the claimed cap of
resplen - 1 = 0; the NUL terminator is then stored at offset 1, one
byte past a 1-byte buffer. -/
theorem c3_cap_code_eval :
    gatherPayloads [⟨SdepResponse, 1, false, [65]⟩] 1 [] = some (some [65]) ∧
    ¬(List.length [65] ≤ 1 - 1) := by
  decide

theorem gather_mkRespPkts (ps : List (List Nat)) (resplen : Nat) (acc : List Nat)
    (hne : ps ≠ [])
    (hlen : acc.length + (ps.flatten).length ≤ resplen)
    (h255 : resplen ≤ 255) :
    gatherPayloads (mkRespPkts ps) resplen acc = some (some (acc ++ ps.flatten)) := by
  induction ps generalizing acc with
  | nil => exact absurd rfl hne
  | cons p rest ih =>
    have hmod : (resplen - acc.length) % 256 = resplen - acc.length :=
      Nat.mod_eq_of_lt (by omega)
    cases rest with
    | nil =>
      have hp : p.length ≤ resplen - acc.length := by
        simp at hlen
        omega
      simp only [mkRespPkts, gatherPayloads, hmod]
      rw [if_neg (by simp [SdepResponse])]
      simp [Nat.min_eq_left hp, List.take_length]
    | cons q rest2 =>
      have hp : p.length ≤ resplen - acc.length := by
        simp at hlen
        omega
      have hmin : min p.length ((resplen - acc.length) % 256) = p.length := by
        rw [hmod]
        exact Nat.min_eq_left hp
      simp only [mkRespPkts, gatherPayloads, hmin, List.take_length]
      rw [if_neg (show ¬(SdepResponse ≠ SdepResponse) by simp)]
      simp only [if_true]
      rw [ih (acc ++ p) (by simp) (by simp at hlen ⊢; omega)]
      simp

end BLE

namespace BLE

/-- C2 counterexample: for the single-packet split of foo CR LF OK CR
LF, read_response succeeds but the buffer holds foo CR LF OK, not the
bare body foo: only the trailing CR/LF bytes are cleared, the OK line
is located to decide success but is never removed from the buffer. -/
theorem c2_counterexample :
    read_response (mkRespPkts [fooResp]) 48 = some (true, fooStripped) ∧
    fooStripped ≠ fooBody := by
  decide

/-- C2 (amended): for every split of the payload text foo CR LF OK CR
LF across Response packets of at most SdepMaxPayload bytes, with the
more bit on every packet but the last, read_response succeeds and the
buffer holds foo CR LF OK (trailing CR/LF stripped; the OK line stays
in the buffer).  resplen is bounded by the byte range of the uint8
length truncation and must leave room for the ten bytes written. -/
theorem c2_amended_roundtrip (ps : List (List Nat)) (resplen : Nat)
    (hne : ps ≠ [])
    (hsplit : ∀ c ∈ ps, c.length ≤ SdepMaxPayload)
    (hjoin : ps.flatten = fooResp)
    (h10 : 10 ≤ resplen) (h255 : resplen ≤ 255) :
    read_response (mkRespPkts ps) resplen = some (true, fooStripped) := by
  have hg := gather_mkRespPkts ps resplen [] hne
    (by rw [hjoin]; simp [fooResp]; omega) h255
  rw [read_response, hg, hjoin]
  decide

/-- C2 witness: the amended theorem applied to the single-packet
split with the 48-byte buffer used by adafruit_ble_task. -/
theorem c2_amended_roundtrip_witness :
    read_response (mkRespPkts [fooResp]) 48 = some (true, fooStripped) :=
  c2_amended_roundtrip [fooResp] 48 (by decide) (by decide) (by decide)
    (by decide) (by decide)

end BLE

namespace BLE

/-- C8 counterexample: with the len field 17 the claim says the payload
read is capped at 16 bytes, so 3 + 16 header-and-payload bytes should
follow the type byte; the code instead skips the payload read entirely
when len exceeds SdepMaxPayload, consuming only the three remaining
header bytes (four SPI bytes in total, not twenty). -/
theorem c8_counterexample :
    sdep_recv_pkt true spiEx 5 = some ⟨0x20, 0, 0, 17, false, [], 4⟩ ∧
    (4 : Nat) ≠ 4 + SdepMaxPayload := by
  constructor
  · rfl
  · decide

/-- C8 (amended): once the IRQ line is high and the first type byte is
neither SlaveNotReady nor SlaveOverflow, sdep_recv_pkt reads the three
remaining header bytes and then exactly len payload bytes when len is
at most 16, and no payload bytes at all when len exceeds 16; and the
call returns false whenever the IRQ line never rises within the
timeout. -/
theorem c8_amended_recv (spi : Nat → Nat) (fuel : Nat) (hf : 1 ≤ fuel)
    (ht1 : spi 0 % 256 ≠ SdepSlaveNotReady)
    (ht2 : spi 0 % 256 ≠ SdepSlaveOverflow) :
    (∃ out : SdepRecvOut, sdep_recv_pkt true spi fuel = some out ∧
      out.ptype = spi 0 % 256 ∧
      out.cmd_low = spi 1 % 256 ∧
      out.cmd_high = spi 2 % 256 ∧
      out.len = (spi 3 % 256) % 128 ∧
      out.payload.length = (if out.len ≤ SdepMaxPayload then out.len else 0) ∧
      out.consumed = 4 + (if out.len ≤ SdepMaxPayload then out.len else 0)) ∧
    sdep_recv_pkt false spi fuel = none := by
  constructor
  · cases fuel with
    | zero => omega
    | succ f =>
        rw [sdep_recv_pkt, if_pos rfl, sdepRecvGo]
        rw [if_neg (by push_neg; exact ⟨ht1, ht2⟩)]
        refine ⟨_, rfl, rfl, rfl, rfl, rfl, ?_, rfl⟩
        simp
  · rw [sdep_recv_pkt]
    simp

end BLE

namespace BLE

/-- C8 witness: the amended theorem applied to the concrete stream
spiEx with one unit of fuel. -/
theorem c8_amended_recv_witness :
    (∃ out : SdepRecvOut, sdep_recv_pkt true spiEx 1 = some out ∧
      out.ptype = spiEx 0 % 256 ∧
      out.cmd_low = spiEx 1 % 256 ∧
      out.cmd_high = spiEx 2 % 256 ∧
      out.len = (spiEx 3 % 256) % 128 ∧
      out.payload.length = (if out.len ≤ SdepMaxPayload then out.len else 0) ∧
      out.consumed = 4 + (if out.len ≤ SdepMaxPayload then out.len else 0)) ∧
    sdep_recv_pkt false spiEx 1 = none :=
  c8_amended_recv spiEx 1 (by decide) (by decide) (by decide)

theorem sendOne_conserve (e : Bool) (q : BleQueue) :
    (sendOne e q).sent ++ (sendOne e q).pending = q.sent ++ q.pending := by
  rcases q with ⟨s, p⟩
  cases p with
  | nil => rfl
  | cons it rest => cases e <;> simp [sendOne]

theorem enqueueRetry_conserve (item : QItem) (env : List Bool)
    (q q' : BleQueue) (env' : List Bool)
    (h : enqueueRetry item env q = some (q', env')) :
    q'.sent ++ q'.pending = q.sent ++ q.pending ++ [item] := by
  induction env generalizing q with
  | nil =>
    rw [enqueueRetry] at h
    by_cases hc : q.pending.length < SendBufCapacity
    · rw [if_pos hc] at h
      simp only [Option.some.injEq, Prod.mk.injEq] at h
      rw [← h.1]
      simp
    · rw [if_neg hc] at h
      simp at h
  | cons e rest ih =>
    rw [enqueueRetry] at h
    by_cases hc : q.pending.length < SendBufCapacity
    · rw [if_pos hc] at h
      simp only [Option.some.injEq, Prod.mk.injEq] at h
      rw [← h.1]
      simp
    · rw [if_neg hc] at h
      rw [ih (sendOne e q) h, sendOne_conserve]

theorem send_keys_conserve (n : Nat) : ∀ (m : Nat) (keys : List Nat)
    (q : BleQueue) (env : List Bool) (b : Bool) (q' : BleQueue),
    adafruit_ble_send_keys m keys n q env = some (b, q') →
    b = true ∧
    q'.sent ++ q'.pending = q.sent ++ q.pending ++ chunkItems m keys n := by
  induction n using Nat.strong_induction_on with
  | _ n ih =>
    intro m keys q env b q' h
    rw [adafruit_ble_send_keys] at h
    cases henq : enqueueRetry (mkKeyItem m keys n) env q with
    | none => rw [henq] at h; simp at h
    | some pr =>
      obtain ⟨q1, env1⟩ := pr
      rw [henq] at h
      dsimp only at h
      by_cases hn : n ≤ 6
      · rw [dif_pos hn] at h
        simp only [Option.some.injEq, Prod.mk.injEq] at h
        refine ⟨h.1.symm, ?_⟩
        rw [← h.2, chunkItems, dif_pos hn]
        have hc := enqueueRetry_conserve _ _ _ _ _ henq
        simpa using hc
      · rw [dif_neg hn] at h
        have hrec := ih (n - 6) (by omega) m (keys.drop 6) q1 env1 b q' h
        have hc := enqueueRetry_conserve _ _ _ _ _ henq
        refine ⟨hrec.1, ?_⟩
        conv_rhs => rw [chunkItems, dif_neg hn]
        rw [hrec.2, hc]
        simp

/-- C9: producers never drop events on a full buffer.  Whenever
adafruit_ble_send_consumer_key or adafruit_ble_send_keys completes, the
items transmitted so far followed by the items still pending are
exactly the old contents followed by the newly built items, in order;
and on a full buffer the call can only complete after the scheduler
send-one path has made room (with no scheduler progress it never
returns). -/
theorem c9_no_drop :
    (∀ (k : Nat) (q : BleQueue) (env : List Bool) (b : Bool) (q' : BleQueue),
      adafruit_ble_send_consumer_key k q env = some (b, q') →
      q'.sent ++ q'.pending = q.sent ++ q.pending ++ [QItem.consumer k]) ∧
    (∀ (m : Nat) (keys : List Nat) (n : Nat) (q : BleQueue) (env : List Bool)
      (b : Bool) (q' : BleQueue),
      adafruit_ble_send_keys m keys n q env = some (b, q') →
      q'.sent ++ q'.pending = q.sent ++ q.pending ++ chunkItems m keys n) ∧
    (∀ (k : Nat) (q : BleQueue), q.pending.length = SendBufCapacity →
      adafruit_ble_send_consumer_key k q [] = none) := by
  refine ⟨?_, ?_, ?_⟩
  · intro k q env b q' h
    rw [adafruit_ble_send_consumer_key] at h
    cases henq : enqueueRetry (QItem.consumer k) env q with
    | none => rw [henq] at h; simp at h
    | some pr =>
      obtain ⟨q1, env1⟩ := pr
      rw [henq] at h
      simp only [Option.some.injEq, Prod.mk.injEq] at h
      rw [← h.2]
      exact enqueueRetry_conserve _ _ _ _ _ henq
  · intro m keys n q env b q' h
    exact (send_keys_conserve n m keys q env b q' h).2
  · intro k q hq
    rw [adafruit_ble_send_consumer_key, enqueueRetry, if_neg (by omega)]

/-- C9 witness: with a full 40-item buffer and one successful
scheduler round, the enqueue completes and the old front item plus the
remaining 39 plus the new item are all accounted for in order. -/
theorem c9_no_drop_witness :
    (BleQueue.mk [QItem.consumer 2]
        (List.replicate 39 (QItem.consumer 2) ++ [QItem.consumer 5])).sent ++
      (BleQueue.mk [QItem.consumer 2]
        (List.replicate 39 (QItem.consumer 2) ++ [QItem.consumer 5])).pending =
    (BleQueue.mk [] (List.replicate 40 (QItem.consumer 2))).sent ++
      (BleQueue.mk [] (List.replicate 40 (QItem.consumer 2))).pending ++
      [QItem.consumer 5] :=
  c9_no_drop.1 5 ⟨[], List.replicate 40 (QItem.consumer 2)⟩ [true] true
    ⟨[QItem.consumer 2], List.replicate 39 (QItem.consumer 2) ++ [QItem.consumer 5]⟩
    (by decide)

/-- C10: the three producer entry points return true on every
invocation that completes: neither a transport failure during the
cooperative send-one rounds nor a full buffer is ever observable in
the returned boolean. -/
theorem c10_always_true :
    (∀ (m : Nat) (keys : List Nat) (n : Nat) (q : BleQueue) (env : List Bool)
      (b : Bool) (q' : BleQueue),
      adafruit_ble_send_keys m keys n q env = some (b, q') → b = true) ∧
    (∀ (k : Nat) (q : BleQueue) (env : List Bool) (b : Bool) (q' : BleQueue),
      adafruit_ble_send_consumer_key k q env = some (b, q') → b = true) ∧
    (∀ (x y s p : Int) (bt : Nat) (q : BleQueue) (env : List Bool)
      (b : Bool) (q' : BleQueue),
      adafruit_ble_send_mouse_move x y s p bt q env = some (b, q') → b = true) := by
  refine ⟨?_, ?_, ?_⟩
  · intro m keys n q env b q' h
    exact (send_keys_conserve n m keys q env b q' h).1
  · intro k q env b q' h
    rw [adafruit_ble_send_consumer_key] at h
    cases henq : enqueueRetry (QItem.consumer k) env q with
    | none => rw [henq] at h; simp at h
    | some pr =>
      obtain ⟨q1, env1⟩ := pr
      rw [henq] at h
      simp only [Option.some.injEq, Prod.mk.injEq] at h
      exact h.1.symm
  · intro x y s p bt q env b q' h
    rw [adafruit_ble_send_mouse_move] at h
    cases henq : enqueueRetry (QItem.mousemove x y s p bt) env q with
    | none => rw [henq] at h; simp at h
    | some pr =>
      obtain ⟨q1, env1⟩ := pr
      rw [henq] at h
      simp only [Option.some.injEq, Prod.mk.injEq] at h
      exact h.1.symm

/-- C10 witness: a consumer-key send on an empty queue completes with
return value true. -/
theorem c10_always_true_witness :
    adafruit_ble_send_consumer_key 3 ⟨[], []⟩ []
      = some (true, ⟨[], [QItem.consumer 3]⟩) ∧ true = true :=
  ⟨by decide,
    c10_always_true.2.1 3 ⟨[], []⟩ [] true ⟨[], [QItem.consumer 3]⟩ (by decide)⟩

end BLE
